import Mathlib

/-!
# Verification of the melonDS-net multiplayer coordination core

Shallow embedding, in Lean 4, of the parts of the repository's netplay /
LAN code that the specification's claims are about:

* `BlobTransfer` (chunked reliable blob delivery) from
  `src/frontend/qt_sdl/NetplayDialog.h` (the `NetplayProtocol.cpp` body
  embedded in that file),
* the blob-message dispatch loop of `NetplaySession::HandleControlMessage`,
* the LAN RX-queue consumer paths (`LAN::ProcessLAN`,
  `LAN::RecvPacketGeneric`, `LAN::RecvHostPacket`, `LAN::RecvReplies`)
  from `src/net/NetplaySession.cpp` (the `LAN.cpp` body embedded there),
* the LAN host connect handler (`LAN::ProcessHostEvent`),
* the Netplay lockstep engine (`NetplaySession::Init`, `SetLocalInput`,
  `SetRemoteInput`, `ReadyForFrame`, `ApplyInputs`, `RunFrame`,
  `ComputeStateHash`, and the `Msg_DesyncAlert` branch of
  `HandleControlMessage`).

Machine integers are modelled as `Nat` with explicit reductions modulo
`2^16`, `2^32` or `2^64` exactly where the C++ code's fixed-width
arithmetic can wrap.  Memory buffers are `List Nat` (byte values).
Stateful code is explicit state passing.  External collaborators (the
emulator instances' frame execution, the xxhash library) enter the model
as function parameters, never as stubs inside the embedded code.
-/

namespace MelonNet

/-- `2^16`, the modulus of the C++ `u16` type. -/
def u16Mod : Nat := 65536

/-- `2^32`, the modulus of the C++ `u32` type. -/
def u32Mod : Nat := 4294967296

/-- `2^64`, the modulus of the C++ `u64` type. -/
def u64Mod : Nat := 18446744073709551616

/-! ## BlobTransfer (NetplayProtocol.cpp embedded in NetplayDialog.h)

The receiver state mirrors the private fields of `class BlobTransfer`
(`NetplayProtocol.h`): `Type`, `TotalLen`, `ReceivedLen`, `Buffer`,
`Complete`, `Receiving`. -/

structure BlobState where
  btype : Nat
  totalLen : Nat
  receivedLen : Nat
  buffer : List Nat
  complete : Bool
  receiving : Bool
deriving Repr, DecidableEq

/-- The default-constructed receiver (`Type = Blob_SRAM = 0`, empty buffer). -/
def BlobState.initial : BlobState :=
  { btype := 0, totalLen := 0, receivedLen := 0, buffer := [],
    complete := false, receiving := false }

/-- Parsed blob control messages.  `bstart`/`bchunk`/`bend` correspond to
`MsgBlobStart`, `MsgBlobChunk` (header plus payload bytes) and
`MsgBlobEnd`; `other` stands for any other control message byte reaching
the `default` branch of `BlobTransfer::OnMessage`.  The C++ size checks
(`len < sizeof(...)`) guard the parsing step and are absorbed into this
structured representation. -/
inductive BlobMsg where
  | bstart (blobType : Nat) (totalLen : Nat)
  | bchunk (offset : Nat) (payload : List Nat)
  | bend (blobType : Nat) (checksum : Nat)
  | other
deriving Repr, DecidableEq

/-- `memcpy(Buffer.data() + offset, payload, payload.size())`: overlay
`payload` on `buf` starting at `offset`. -/
def overlayAt (buf : List Nat) (offset : Nat) (payload : List Nat) : List Nat :=
  buf.take offset ++ payload ++ buf.drop (offset + payload.length)

/-- Byte-sum checksum as accumulated by the C++ `u32 checksum` variable:
the sum of all byte values reduced modulo `2^32`. -/
def byteChecksum (bytes : List Nat) : Nat :=
  bytes.sum % u32Mod

/-- `BlobTransfer::OnMessage`.  Returns the updated receiver state and the
boolean result (`true` exactly when a complete blob was just received). -/
def BlobState.onMessage (b : BlobState) (m : BlobMsg) : BlobState × Bool :=
  match m with
  | .bstart blobType totalLen =>
      ({ btype := blobType, totalLen := totalLen, receivedLen := 0,
         buffer := List.replicate totalLen 0,
         complete := false, receiving := true }, false)
  | .bchunk offset payload =>
      if !b.receiving then (b, false)
      else if b.totalLen < offset + payload.length then (b, false)
      else ({ b with buffer := overlayAt b.buffer offset payload,
                     receivedLen := b.receivedLen + payload.length }, false)
  | .bend _ checksum =>
      if !b.receiving then (b, false)
      else if byteChecksum (b.buffer.take b.totalLen) ≠ checksum % u32Mod then
        ({ b with receiving := false }, false)
      else
        ({ b with complete := true, receiving := false }, true)
  | .other => (b, false)

/-- Feed a list of messages to a receiver in order, ignoring the results. -/
def BlobState.run (b : BlobState) : List BlobMsg → BlobState
  | [] => b
  | m :: ms => ((b.onMessage m).1).run ms

/-- The receiver state right after a `BlobStart{t, len}` message. -/
def blobAfterStart (t len : Nat) : BlobState :=
  { btype := t, totalLen := len, receivedLen := 0,
    buffer := List.replicate len 0, complete := false, receiving := true }

/-- The receiver state after applying an in-bounds chunk. -/
def blobAfterChunk (b : BlobState) (off : Nat) (pl : List Nat) : BlobState :=
  { b with buffer := overlayAt b.buffer off pl,
           receivedLen := b.receivedLen + pl.length }

/-- The chunk loop of `BlobTransfer::Send`: split `data` into
`kBlobChunkSize = 0x10000`-byte chunks, tagged with their offsets. -/
def chunkMsgs (offset : Nat) : List Nat → List BlobMsg
  | [] => []
  | x :: rest =>
      .bchunk offset ((x :: rest).take 65536) ::
        chunkMsgs (offset + min 65536 (rest.length + 1)) (rest.drop 65535)
termination_by l => l.length
decreasing_by
  simp only [List.length_drop, List.length_cons]
  omega

/-- `BlobTransfer::Send`: the message sequence emitted for one blob
(`BlobStart`, the chunks in ascending offset order, `BlobEnd` carrying
the byte-sum checksum). -/
def sendMsgs (blobType : Nat) (data : List Nat) : List BlobMsg :=
  .bstart blobType data.length :: chunkMsgs 0 data ++
    [.bend blobType (byteChecksum data)]

/-! ## Blob message dispatch (`NetplaySession::HandleControlMessage`)

The `Msg_BlobStart/Chunk/End` branch runs
`for (i = 0; i < Blob_MAX; i++) if (BlobRecv[i].OnMessage(data,len)) break;`
— every receiver in index order processes the message until one of them
reports a completed blob. -/

def dispatchBlob : List BlobState → BlobMsg → List BlobState
  | [], _ => []
  | b :: rest, m =>
      let r := b.onMessage m
      if r.2 then r.1 :: rest else r.1 :: dispatchBlob rest m

/-! ## LAN RX queue (`LAN.cpp` embedded in `src/net/NetplaySession.cpp`)

An enqueued MP packet, as the consumer paths see it.  The network thread
(`LAN::NetworkThreadFunc`) has already validated the `NIFI` magic,
dropped own-sender packets, and rewritten the header's `Magic` field
with the receive wall-clock (`rxTime` here, a `u32` millisecond count).
`ptype` is the header's `u32 Type` (low 16 bits: 0 = bulk frame,
1 = command, 2 = reply, 3 = ack; high 16 bits: the reply's aid),
`timestamp` the `u64` emulated-wireless timestamp. -/

structure MPPkt where
  rxTime : Nat
  senderID : Nat
  ptype : Nat
  length : Nat
  timestamp : Nat
deriving Repr, DecidableEq

/-- The staleness test of `LAN::ProcessLAN`:
`(packettime > time_last) || (packettime < (time_last - 500))`, with the
subtraction performed in `u32` arithmetic (it wraps when `now < 500`). -/
def staleDrop (now rxTime : Nat) : Bool :=
  decide (now < rxTime) || decide (rxTime < (now + (u32Mod - 500)) % u32Mod)

/-- The RX-queue scan of `LAN::ProcessLAN(type)` for `type ∈ {0,1,2}`,
restricted to its effect on the queue.  `t = 0`: per-frame processing;
`t = 1`: check for a pending bulk frame (`RecvPacket`); `t = 2`: wait
for any MP packet (`RecvHostPacket`).  Returns the queue left behind and
the `found` flag.  Stale packets at the head are popped and destroyed;
for `t = 1` a fresh non-bulk packet at the head is popped and destroyed
and the scan then stops (the packet behind it is not examined). -/
def processLANQueue (t : Nat) (now : Nat) : List MPPkt → List MPPkt × Bool
  | [] => ([], false)
  | p :: rest =>
      if staleDrop now p.rxTime then processLANQueue t now rest
      else if t = 2 then (p :: rest, true)
      else if t = 1 then
        if p.ptype % u32Mod = 0 then (p :: rest, true)
        else (rest, false)
      else (p :: rest, false)

/-- `LAN::RecvPacketGeneric(packet, block, timestamp)`: run
`ProcessLAN(block ? 2 : 1)`, then pop and deliver the packet now at the
head of the queue, if any.  (The C++ code also records `LastHostID` /
`LastHostPeer` when the delivered packet is a command and copies up to
2048 payload bytes out; the claims only concern which packet is
delivered, so the model returns the packet itself.) -/
def recvPacketGeneric (block : Bool) (now : Nat) (q : List MPPkt) :
    Option MPPkt × List MPPkt :=
  let r := processLANQueue (if block then 2 else 1) now q
  match r.1 with
  | [] => (none, [])
  | p :: rest => (some p, rest)

/-- `LAN::RecvPacket` (non-blocking consumer path). -/
def recvPacket (now : Nat) (q : List MPPkt) : Option MPPkt × List MPPkt :=
  recvPacketGeneric false now q

/-- `LAN::RecvHostPacket` (blocking consumer path). -/
def recvHostPacket (now : Nat) (q : List MPPkt) : Option MPPkt × List MPPkt :=
  recvPacketGeneric true now q

/-! ### `LAN::RecvReplies`

The real function alternates queue drains with 1 ms sleeps until the
configured `MPRecvTimeout` elapses; the network thread refills the queue
between drains.  The model makes the timing explicit: `rounds` lists the
queue contents seen by each successive drain pass, and the list ends at
the pass after which the timeout check `MPRecvTimeout - (now - timeout_start)
≤ 0` fires.  Everything inside a drain pass is translated directly from
the source. -/

/-- The context a `RecvReplies` call runs in: the local player id, the
`aidmask` and emulated `timestamp` arguments, and the value of the
atomic `ConnectedBitmask` (constant in this single-consumer model). -/
structure ReplyCtx where
  myID : Nat
  aidmask : Nat
  timestamp : Nat
  connmask : Nat
deriving Repr, DecidableEq

/-- The packet filter inside the drain loop: a packet is kept iff its
type's low 16 bits equal 2 (reply) and its emulated timestamp is not
older than `timestamp - 0x100000` (a `u64` subtraction, which wraps). -/
def goodReply (ctx : ReplyCtx) (p : MPPkt) : Bool :=
  decide (p.ptype % u16Mod = 2) &&
    !decide (p.timestamp % u64Mod <
      (ctx.timestamp + (u64Mod - 1048576)) % u64Mod)

/-- One good reply's contribution to the result bitmask: `ret |= (1<<aid)`
with `u16 ret` (bits at positions ≥ 16 are truncated away), applied only
when the packet has a payload (`header->Length != 0`). -/
def replyRetStep (ret : Nat) (p : MPPkt) : Nat :=
  if p.length ≠ 0 then (ret ||| 2 ^ (p.ptype / u16Mod)) % u16Mod else ret

/-- `myinstmask |= (1<<header->SenderID)` with `u16 myinstmask`. -/
def replyMaskStep (mym : Nat) (p : MPPkt) : Nat :=
  (mym ||| 2 ^ p.senderID) % u16Mod

/-- The early-exit test
`((myinstmask & connmask) == connmask) || ((ret & aidmask) == aidmask)`. -/
def replyDone (ctx : ReplyCtx) (ret mym : Nat) : Bool :=
  decide (mym &&& ctx.connmask = ctx.connmask) ||
    decide (ret &&& ctx.aidmask = ctx.aidmask)

/-- One drain pass of the `RecvReplies` loop body: pop every queued
packet, fold the good replies into `(ret, myinstmask)`, and stop the
whole call as soon as the early-exit test passes.  The `Bool` result is
`true` when the pass returned early. -/
def drainReplies (ctx : ReplyCtx) :
    List MPPkt → Nat → Nat → Nat × Nat × Bool
  | [], ret, mym => (ret, mym, false)
  | p :: rest, ret, mym =>
      if goodReply ctx p then
        let ret' := replyRetStep ret p
        let mym' := replyMaskStep mym p
        if replyDone ctx ret' mym' then (ret', mym', true)
        else drainReplies ctx rest ret' mym'
      else drainReplies ctx rest ret mym

/-- The outer wait loop: successive drain passes until one returns early
or the timeout expires (modelled by `rounds` running out). -/
def recvRepliesRounds (ctx : ReplyCtx) :
    List (List MPPkt) → Nat → Nat → Nat
  | [], ret, _ => ret
  | r :: rest, ret, mym =>
      let d := drainReplies ctx r ret mym
      if d.2.2 then d.1 else recvRepliesRounds ctx rest d.1 d.2.1

/-- `LAN::RecvReplies(inst, packets, timestamp, aidmask)`.  The initial
`myinstmask = 1 << MyPlayer.ID` check returns 0 at once when every
connected bit is already covered by the local player alone. -/
def recvReplies (ctx : ReplyCtx) (rounds : List (List MPPkt)) : Nat :=
  let mym := 2 ^ ctx.myID % u16Mod
  if mym &&& ctx.connmask = ctx.connmask then 0
  else recvRepliesRounds ctx rounds 0 mym

/-! ## LAN host connect handling (`LAN::ProcessHostEvent`, `ENET_EVENT_TYPE_CONNECT`) -/

/-- Player status.  The enum values live in `LAN.h` (not part of the
sources here); only the distinctions used by `ProcessHostEvent` matter:
`Player_None` marks a free slot. -/
inductive PlayerStatus where
  | free
  | client
  | host
  | connecting
  | disconnected
deriving Repr, DecidableEq

/-- One slot of the host's fixed 16-entry `Players` table. -/
structure LanPlayer where
  id : Nat
  status : PlayerStatus
  address : Nat
deriving Repr, DecidableEq

/-- The slice of `LAN` state that the connect handler touches:
the player table (16 slots), `NumPlayers`, `MaxPlayers`, and which
slots have a remote peer attached. -/
structure LanState where
  players : Fin 16 → LanPlayer
  numPlayers : Nat
  maxPlayers : Nat
  remotePeers : Fin 16 → Bool

/-- Outcome of a connect event: the peer is either rejected
(`enet_peer_disconnect`) or accepted with an assigned id and a
`ClientInit` message carrying `(assigned id, MaxPlayers)`
(bytes 9 and 10 of the 11-byte command). -/
inductive ConnectResult where
  | rejected
  | accepted (id : Nat) (clientInitID : Nat) (clientInitMaxPlayers : Nat)
deriving Repr, DecidableEq

/-- The id-allocation loop:
`for (id = 0; id < 16; id++) { if (id >= NumPlayers) break; if (Players[id].Status == Player_None) break; }`.
Returns the loop counter's final value (16 when no break fired). -/
def findAssignID (st : LanState) : Nat :=
  go st 0
where
  go (st : LanState) (i : Nat) : Nat :=
    if h : i < 16 then
      if st.numPlayers ≤ i then i
      else if (st.players ⟨i, h⟩).status = .free then i
      else go st (i + 1)
    else 16
  termination_by 16 - i

/-- The `ENET_EVENT_TYPE_CONNECT` branch of `LAN::ProcessHostEvent`:
reject when `NumPlayers >= MaxPlayers || NumPlayers >= 16`; otherwise
assign an id with the allocation loop, send `ClientInit{id, MaxPlayers}`,
fill the slot (`ID = id`, `Status = Player_Connecting`,
`Address = peer address`), increment `NumPlayers` and attach the peer. -/
def processHostConnect (st : LanState) (peerAddr : Nat) :
    LanState × ConnectResult :=
  if st.maxPlayers ≤ st.numPlayers ∨ 16 ≤ st.numPlayers then
    (st, .rejected)
  else
    let id := findAssignID st
    if h : id < 16 then
      let st' :=
        { st with
          players := fun j =>
            if j = ⟨id, h⟩ then
              { id := id, status := .connecting, address := peerAddr }
            else st.players j,
          numPlayers := st.numPlayers + 1,
          remotePeers := fun j => if j = ⟨id, h⟩ then true else st.remotePeers j }
      (st', .accepted id id st.maxPlayers)
    else
      (st, .rejected)

/-! ## Netplay lockstep engine (`NetplaySession`, `src/net/NetplaySession.cpp`)

The engine state mirrors the private fields of `class NetplaySession`
(`NetplaySession.h`) that the claims touch.  `INPUT_BUF_SIZE = 256`,
`kNetplayMaxPlayers = 4`, `DESYNC_CHECK_INTERVAL = 60`.  The input ring
is a function `player → slot → cell` (slots reduced mod 256 at every
access, as in the source).  Emulator instances appear as their
hash-relevant memory (`MainRAM`, the `ARM9.R` and `ARM7.R` register
files, as byte streams); a `none` entry is a null `Instances[i]`
pointer.  The per-frame emulator execution and the xxhash64 digest are
external to this repository and enter `runFrame` as parameters. -/

structure InputFrame where
  frameNum : Nat
  keyMask : Nat
  touching : Nat
  touchX : Nat
  touchY : Nat
  lidClosed : Nat
  checksum : Nat
deriving Repr, DecidableEq

/-- The all-zero `InputFrame` (`memset(InputBuf, 0, ...)`). -/
def InputFrame.zero : InputFrame :=
  { frameNum := 0, keyMask := 0, touching := 0, touchX := 0, touchY := 0,
    lidClosed := 0, checksum := 0 }

/-- The neutral input written by the `Init` pre-fill loop for frame `f`:
all 12 buttons released (`KeyMask = 0xFFF`), no touch, lid open. -/
def InputFrame.neutral (f : Nat) : InputFrame :=
  { frameNum := f, keyMask := 0xFFF, touching := 0, touchX := 0, touchY := 0,
    lidClosed := 0, checksum := 0 }

/-- The state of one emulator instance that `ComputeStateHash` reads:
main RAM (`MainRAMMask + 1` bytes) and both CPU register files, as byte
lists. -/
structure InstMem where
  mainRAM : List Nat
  arm9R : List Nat
  arm7R : List Nat
deriving Repr, DecidableEq

structure NPSession where
  numInstances : Nat
  localPlayerID : Nat
  inputDelay : Int
  currentFrame : Nat
  startFrame : Nat
  active : Bool
  hostMode : Bool
  isCurrent : Bool
  inputBuf : Nat → Nat → InputFrame
  inputReady : Nat → Nat → Bool
  lastStateHash : Nat
  lastHashFrame : Nat
  instances : List (Option InstMem)
  transportConnected : Bool
  desyncCbSet : Bool

/-- Write the neutral input for frame `f` into player `p`'s ring slot
`f mod 256` and flag it ready (one iteration of the `Init` pre-fill). -/
def prefillOne (st : NPSession) (p f : Nat) : NPSession :=
  { st with
    inputBuf := fun p' i =>
      if p' = p ∧ i = f % 256 then InputFrame.neutral f else st.inputBuf p' i,
    inputReady := fun p' i =>
      if p' = p ∧ i = f % 256 then true else st.inputReady p' i }

/-- The inner pre-fill loop `for (f = 0; f < inputDelay; f++)` for one
player: apply `prefillOne` for `f = 0, …, n-1` in ascending order. -/
def prefillFrames (p : Nat) (st : NPSession) : Nat → NPSession
  | 0 => st
  | n + 1 => prefillOne (prefillFrames p st n) p n

/-- The outer pre-fill loop `for (p = 0; p < numPlayers; p++)`. -/
def prefillPlayers (delay : Nat) (st : NPSession) : Nat → NPSession
  | 0 => st
  | q + 1 => prefillFrames q (prefillPlayers delay st q) delay

/-- `NetplaySession::Init(localPlayerID, numPlayers, inputDelay)`.  The
parameters are C++ `int`s.  On a rejected argument it returns `false`
having touched nothing; otherwise it stores the parameters, zeroes the
input ring, pre-fills slots `[0, inputDelay)` with neutral ready inputs,
publishes the session (`Current = this`) and marks it active. -/
def initSession (st : NPSession) (localPlayerID numPlayers inputDelay : Int) :
    Bool × NPSession :=
  if numPlayers < 2 ∨ 4 < numPlayers then (false, st)
  else if localPlayerID < 0 ∨ numPlayers ≤ localPlayerID then (false, st)
  else
    let st1 :=
      { st with
        localPlayerID := localPlayerID.toNat,
        numInstances := numPlayers.toNat,
        inputDelay := inputDelay,
        currentFrame := 0,
        startFrame := 0,
        hostMode := localPlayerID = 0,
        inputBuf := fun _ _ => InputFrame.zero,
        inputReady := fun _ _ => false }
    let st2 := prefillPlayers inputDelay.toNat st1 numPlayers.toNat
    (true, { st2 with isCurrent := true, active := true })

/-- `NetplaySession::SetLocalInput`: rewrite the input's frame number to
`CurrentFrame + InputDelay` (a `u32` sum with an `int` delay) and store
it, ready, at ring slot `FrameNum mod 256` of the local player. -/
def setLocalInput (st : NPSession) (input : InputFrame) : NPSession :=
  let fn := (((st.currentFrame : Int) + st.inputDelay) % (u32Mod : Int)).toNat
  let idx := fn % 256
  { st with
    inputBuf := fun p i =>
      if p = st.localPlayerID ∧ i = idx then { input with frameNum := fn }
      else st.inputBuf p i,
    inputReady := fun p i =>
      if p = st.localPlayerID ∧ i = idx then true else st.inputReady p i }

/-- `NetplaySession::SetRemoteInput`: drop out-of-range player ids, else
store the input, ready, at ring slot `input.FrameNum mod 256`. -/
def setRemoteInput (st : NPSession) (playerID : Int) (input : InputFrame) :
    NPSession :=
  if playerID < 0 ∨ (st.numInstances : Int) ≤ playerID then st
  else
    let idx := input.frameNum % 256
    { st with
      inputBuf := fun p i =>
        if p = playerID.toNat ∧ i = idx then input else st.inputBuf p i,
      inputReady := fun p i =>
        if p = playerID.toNat ∧ i = idx then true else st.inputReady p i }

/-- `NetplaySession::ReadyForFrame`: every player's ready flag at slot
`frameNum mod 256`. -/
def readyForFrame (st : NPSession) (frameNum : Nat) : Bool :=
  (List.range st.numInstances).all fun p => st.inputReady p (frameNum % 256)

/-- What `ApplyInputs(frame)` consumed: the frame, and per player the
ready flag at the moment of consumption and the input cell applied to
the instance (keys, touch, lid). -/
structure ConsumeRec where
  frame : Nat
  readiness : List Bool
  inputs : List InputFrame
deriving Repr, DecidableEq

/-- `NetplaySession::ApplyInputs(frame)`: read every player's cell at
slot `frame mod 256` and latch it into the instance, then clear the
ready flags at that slot.  The instance latching is external emulator
state; the model records the applied inputs in the `ConsumeRec`. -/
def applyInputs (st : NPSession) (frame : Nat) : NPSession × ConsumeRec :=
  let idx := frame % 256
  let rec₀ : ConsumeRec :=
    { frame := frame,
      readiness := (List.range st.numInstances).map fun p => st.inputReady p idx,
      inputs := (List.range st.numInstances).map fun p => st.inputBuf p idx }
  ({ st with
     inputReady := fun p i =>
       if p < st.numInstances ∧ i = idx then false else st.inputReady p i },
   rec₀)

/-- The byte stream `ComputeStateHash` feeds to the hash: for every
non-null instance in index order, main RAM then the ARM9 then the ARM7
register file. -/
def hashStream : List (Option InstMem) → List Nat
  | [] => []
  | none :: rest => hashStream rest
  | some m :: rest => m.mainRAM ++ m.arm9R ++ m.arm7R ++ hashStream rest

/-- `NetplaySession::ComputeStateHash`, parametric in the xxhash64
digest (`XXH64` with seed 0 lives in the external xxhash library). -/
def computeStateHash (digest : List Nat → Nat)
    (instances : List (Option InstMem)) : Nat :=
  digest (hashStream instances)

/-- `NetplaySession::RunFrame`, parametric in the per-instance frame
execution `runInst` (the external `NDS::RunFrame`, barrier-synchronized
in the source) and the hash digest.  Returns the new state, the
`DesyncAlert{Frame, Hash}` broadcast on the control channel when one was
sent, and the consumption record of `ApplyInputs` when the frame ran. -/
def runFrame (runInst : Nat → InstMem → InstMem) (digest : List Nat → Nat)
    (st : NPSession) : NPSession × Option (Nat × Nat) × Option ConsumeRec :=
  if !st.active || st.numInstances = 0 then (st, none, none)
  else
    let a := applyInputs st st.currentFrame
    let st1 := a.1
    let st2 :=
      { st1 with
        instances := (st1.instances.zip (List.range st1.instances.length)).map
          fun (x : Option InstMem × Nat) => x.1.map (runInst x.2) }
    let checked :=
      if 0 < st.currentFrame ∧ st.currentFrame % 60 = 0 then
        let h := computeStateHash digest st2.instances
        ({ st2 with lastStateHash := h, lastHashFrame := st.currentFrame },
         if st.transportConnected then some (st.currentFrame, h) else none)
      else (st2, none)
    ({ checked.1 with currentFrame := (checked.1.currentFrame + 1) % u32Mod },
     checked.2, some a.2)

/-- The `Msg_DesyncAlert` branch of `NetplaySession::HandleControlMessage`:
when the peer's frame matches the last locally hashed frame and the
hashes differ, the desync callback fires (if one is set); the session
state is left untouched either way — no recovery is attempted.  Returns
the (unchanged) state and whether the callback fired. -/
def handleDesyncAlert (st : NPSession) (frame hash : Nat) : NPSession × Bool :=
  if frame = st.lastHashFrame ∧ hash ≠ st.lastStateHash then
    (st, st.desyncCbSet)
  else
    (st, false)

/-! ## Characterization helpers

Derived, executable descriptions of the embedded functions' behaviour,
used to state the claims.  They are not translations of source code. -/

/-- Placeholder packet for out-of-range `List.getD` indexing. -/
def dfltPkt : MPPkt :=
  { rxTime := 0, senderID := 0, ptype := 0, length := 0, timestamp := 0 }

/-- The `RecvReplies` entry test: the local player's bit already covers
every connected bit, so the call returns 0 at once. -/
def initReplied (ctx : ReplyCtx) : Bool :=
  decide ((2 ^ ctx.myID % u16Mod) &&& ctx.connmask = ctx.connmask)

/-- A packet that `RecvReplies` both keeps and records in the result
bitmask: a fresh reply with a nonempty payload. -/
def replyCollected (ctx : ReplyCtx) (p : MPPkt) : Bool :=
  goodReply ctx p && decide (p.length ≠ 0)

/-- The initial `(ret, myinstmask)` pair of a `RecvReplies` call. -/
def replyInit (ctx : ReplyCtx) : Nat × Nat :=
  (0, 2 ^ ctx.myID % u16Mod)

/-- The `(ret, myinstmask)` accumulation of the drain loop, run over a
packet list without the early exit. -/
def procFold (ctx : ReplyCtx) : List MPPkt → Nat × Nat → Nat × Nat
  | [], rm => rm
  | p :: rest, rm =>
      procFold ctx rest
        (if goodReply ctx p then (replyRetStep rm.1 p, replyMaskStep rm.2 p)
         else rm)

/-- Relative first-trigger search: the index (counted from the start of
the list) of the first good packet whose processing makes the early-exit
test pass, starting from accumulators `(ret, mym)`. -/
def firstTermAux (ctx : ReplyCtx) : List MPPkt → Nat → Nat → Option Nat
  | [], _, _ => none
  | p :: rest, ret, mym =>
      if goodReply ctx p then
        let ret' := replyRetStep ret p
        let mym' := replyMaskStep mym p
        if replyDone ctx ret' mym' then some 0
        else (firstTermAux ctx rest ret' mym').map (· + 1)
      else (firstTermAux ctx rest ret mym).map (· + 1)

/-- Index of the packet at which a `RecvReplies` call over `pkts`
returns early, if any. -/
def firstTerm (ctx : ReplyCtx) (pkts : List MPPkt) : Option Nat :=
  firstTermAux ctx pkts (replyInit ctx).1 (replyInit ctx).2

/-- The packets a `RecvReplies` call actually pops and examines: the
prefix up to and including the early-exit trigger, or all of them. -/
def processedReplies (ctx : ReplyCtx) (pkts : List MPPkt) : List MPPkt :=
  match firstTerm ctx pkts with
  | some k => pkts.take (k + 1)
  | none => pkts

/-- Whether processing `pkts[j]` (a good packet) makes the early-exit
test pass, measured on the no-early-exit fold. -/
def termTriggered (ctx : ReplyCtx) (pkts : List MPPkt) (j : Nat) : Bool :=
  goodReply ctx (pkts.getD j dfltPkt) &&
    replyDone ctx (procFold ctx (pkts.take (j + 1)) (replyInit ctx)).1
      (procFold ctx (pkts.take (j + 1)) (replyInit ctx)).2

/-- Number of occupied (non-`Player_None`) slots in the host's table. -/
def occupiedCount (st : LanState) : Nat :=
  (Finset.univ.filter fun j : Fin 16 => (st.players j).status ≠ .free).card

/-- The smallest table index whose slot is free, if any. -/
def lowestFreeID (st : LanState) : Option Nat :=
  ((List.finRange 16).find? fun j => (st.players j).status = .free).map Fin.val

/-! ## Concrete states for witnesses and counterexamples -/

/-- A default-constructed `NetplaySession` (the constructor memsets the
input ring and leaves the session inactive and unpublished). -/
def npBase : NPSession :=
  { numInstances := 0, localPlayerID := 0, inputDelay := 4, currentFrame := 0,
    startFrame := 0, active := false, hostMode := false, isCurrent := false,
    inputBuf := fun _ _ => InputFrame.zero, inputReady := fun _ _ => false,
    lastStateHash := 0, lastHashFrame := 0, instances := [],
    transportConnected := false, desyncCbSet := false }

/-- A tiny concrete instance memory. -/
def demoInst : InstMem :=
  { mainRAM := [1, 2], arm9R := [3], arm7R := [4] }

/-- A two-player session initialized with input delay 0 (accepted by
`Init`) and both instances created: no ring slot is ready, yet the
session is active and `RunFrame` will consume frame 0. -/
def c1State : NPSession :=
  { (initSession npBase 0 2 0).2 with
    instances := [some demoInst, some demoInst] }

/-- An active, connected two-player session about to execute frame 60
(a desync-checkpoint frame). -/
def c7State : NPSession :=
  { (initSession npBase 0 2 4).2 with
    currentFrame := 60,
    instances := [some demoInst, some demoInst],
    transportConnected := true,
    desyncCbSet := true }

/-- Host table with the host at slot 0 and a client at slot 2 (slot 1
was vacated by a disconnect): `NumPlayers = 2`, `MaxPlayers = 4`. -/
def lanDemo : LanState :=
  { players := fun j =>
      if j = (0 : Fin 16) then { id := 0, status := .host, address := 1 }
      else if j = (2 : Fin 16) then { id := 2, status := .client, address := 7 }
      else { id := 0, status := .free, address := 0 },
    numPlayers := 2,
    maxPlayers := 4,
    remotePeers := fun j => j = (2 : Fin 16) }

/-- A full host table: all 16 slots occupied. -/
def lanFull : LanState :=
  { players := fun j => { id := j, status := if j = 0 then .host else .client, address := 9 },
    numPlayers := 16,
    maxPlayers := 16,
    remotePeers := fun j => j ≠ (0 : Fin 16) }

/-- `RecvReplies` context for the witness: local player 0, four
connected players, gathering aids 1–3. -/
def replyCtxDemo : ReplyCtx :=
  { myID := 0, aidmask := 0xE, timestamp := 5000000, connmask := 0xF }

/-- Reply packet from sender `s` with aid `a`, fresh emulated timestamp. -/
def replyPkt (s a : Nat) : MPPkt :=
  { rxTime := 100, senderID := s, ptype := 2 + a * u16Mod, length := 16,
    timestamp := 5000000 }

/-- Two drain rounds of replies: player 1's reply arrives first, players
2 and 3 reply in the second round. -/
def replyRoundsDemo : List (List MPPkt) :=
  [[replyPkt 1 1], [replyPkt 2 2, replyPkt 3 3]]

/-! # Theorems -/

/-! ## Pre-fill loop lemmas (`NetplaySession::Init`) -/

theorem prefillFrames_fields (p : Nat) (st : NPSession) (n : Nat) :
    (prefillFrames p st n).currentFrame = st.currentFrame ∧
    (prefillFrames p st n).hostMode = st.hostMode ∧
    (prefillFrames p st n).numInstances = st.numInstances ∧
    (prefillFrames p st n).localPlayerID = st.localPlayerID := by
  induction n with
  | zero => exact ⟨rfl, rfl, rfl, rfl⟩
  | succ n ih => exact ih

theorem prefillPlayers_fields (delay : Nat) (st : NPSession) (q : Nat) :
    (prefillPlayers delay st q).currentFrame = st.currentFrame ∧
    (prefillPlayers delay st q).hostMode = st.hostMode ∧
    (prefillPlayers delay st q).numInstances = st.numInstances ∧
    (prefillPlayers delay st q).localPlayerID = st.localPlayerID := by
  induction q with
  | zero => exact ⟨rfl, rfl, rfl, rfl⟩
  | succ q ih =>
      have h := prefillFrames_fields q (prefillPlayers delay st q) delay
      exact ⟨h.1.trans ih.1, h.2.1.trans ih.2.1, h.2.2.1.trans ih.2.2.1,
        h.2.2.2.trans ih.2.2.2⟩

theorem prefillFrames_hit (p : Nat) (st : NPSession) (n f : Nat) (hf : f < n) :
    (prefillFrames p st n).inputReady p (f % 256) = true ∧
    ((prefillFrames p st n).inputBuf p (f % 256)).keyMask = 0xFFF ∧
    ((prefillFrames p st n).inputBuf p (f % 256)).touching = 0 ∧
    ((prefillFrames p st n).inputBuf p (f % 256)).touchX = 0 ∧
    ((prefillFrames p st n).inputBuf p (f % 256)).touchY = 0 ∧
    ((prefillFrames p st n).inputBuf p (f % 256)).lidClosed = 0 := by
  induction n with
  | zero => omega
  | succ n ih =>
      by_cases hfn : f % 256 = n % 256
      · simp [prefillFrames, prefillOne, hfn, InputFrame.neutral]
      · have hf' : f < n := by
          rcases Nat.lt_succ_iff_lt_or_eq.mp hf with h | h
          · exact h
          · exact absurd (by rw [h]) hfn
        simpa [prefillFrames, prefillOne, hfn] using ih hf'

theorem prefillFrames_other (p : Nat) (st : NPSession) (n : Nat) (p' i : Nat)
    (hp : p' ≠ p) :
    (prefillFrames p st n).inputReady p' i = st.inputReady p' i ∧
    (prefillFrames p st n).inputBuf p' i = st.inputBuf p' i := by
  induction n with
  | zero => exact ⟨rfl, rfl⟩
  | succ n ih => simpa [prefillFrames, prefillOne, hp] using ih

theorem prefillPlayers_hit (delay : Nat) (st : NPSession) :
    ∀ q p f : Nat, p < q → f < delay →
    (prefillPlayers delay st q).inputReady p (f % 256) = true ∧
    ((prefillPlayers delay st q).inputBuf p (f % 256)).keyMask = 0xFFF ∧
    ((prefillPlayers delay st q).inputBuf p (f % 256)).touching = 0 ∧
    ((prefillPlayers delay st q).inputBuf p (f % 256)).touchX = 0 ∧
    ((prefillPlayers delay st q).inputBuf p (f % 256)).touchY = 0 ∧
    ((prefillPlayers delay st q).inputBuf p (f % 256)).lidClosed = 0 := by
  intro q
  induction q with
  | zero => intro p f hp hf; omega
  | succ q ih =>
      intro p f hp hf
      by_cases hpq : p = q
      · subst hpq
        exact prefillFrames_hit p (prefillPlayers delay st p) delay f hf
      · have hlt : p < q := by omega
        have hpres := prefillFrames_other q (prefillPlayers delay st q) delay
          p (f % 256) hpq
        have hih := ih p f hlt hf
        have hstep : prefillPlayers delay st (q + 1) =
            prefillFrames q (prefillPlayers delay st q) delay := rfl
        refine ⟨hpres.1.trans hih.1, ?_, ?_, ?_, ?_, ?_⟩ <;>
          (rw [hstep, hpres.2]; tauto)

/-- C10: `NetplaySession::Init` returns false and changes nothing (the
session stays inactive and unpublished, no ring slot becomes ready) for
every `numPlayers` outside `[2, 4]` or `localPlayerID` outside
`[0, numPlayers)`; for in-range arguments it returns true, resets the
frame counter to 0, marks the session active and published, and enters
host mode exactly when `localPlayerID = 0`. -/
theorem init_validation_spec (st : NPSession) (lp np d : Int) :
    ((np < 2 ∨ 4 < np ∨ lp < 0 ∨ np ≤ lp) →
      initSession st lp np d = (false, st)) ∧
    (2 ≤ np → np ≤ 4 → 0 ≤ lp → lp < np →
      (initSession st lp np d).1 = true ∧
      (initSession st lp np d).2.currentFrame = 0 ∧
      (initSession st lp np d).2.active = true ∧
      (initSession st lp np d).2.isCurrent = true ∧
      ((initSession st lp np d).2.hostMode = true ↔ lp = 0)) := by
  constructor
  · intro h
    by_cases h1 : np < 2 ∨ 4 < np
    · simp [initSession, h1]
    · have h2 : lp < 0 ∨ np ≤ lp := by
        rcases h with h | h | h | h
        · exact absurd (Or.inl h) h1
        · exact absurd (Or.inr h) h1
        · exact Or.inl h
        · exact Or.inr h
      simp [initSession, h1, h2]
  · intro h2 h4 h0 hlt
    have h1 : ¬(np < 2 ∨ 4 < np) := by omega
    have hg : ¬(lp < 0 ∨ np ≤ lp) := by omega
    have hfields := prefillPlayers_fields d.toNat
      { st with
        localPlayerID := lp.toNat, numInstances := np.toNat, inputDelay := d,
        currentFrame := 0, startFrame := 0, hostMode := decide (lp = 0),
        inputBuf := fun _ _ => InputFrame.zero,
        inputReady := fun _ _ => false } np.toNat
    refine ⟨?_, ?_, ?_, ?_, ?_⟩
    · simp [initSession, h1, hg]
    · simp only [initSession, h1, hg, if_false, ite_false]
      rw [hfields.1]
    · simp [initSession, h1, hg]
    · simp [initSession, h1, hg]
    · simp only [initSession, h1, hg, if_false, ite_false]
      rw [hfields.2.1]
      simp

/-- Witness for `init_validation_spec`: a fresh session, rejected for
`numPlayers = 5`, accepted for host arguments `(0, 2, 4)`. -/
theorem init_validation_spec_witness :
    initSession npBase 0 5 4 = (false, npBase) ∧
    (initSession npBase 0 2 4).1 = true ∧
    (initSession npBase 0 2 4).2.active = true := by
  refine ⟨(init_validation_spec npBase 0 5 4).1 (by omega), ?_, ?_⟩
  · exact ((init_validation_spec npBase 0 2 4).2 (by omega) (by omega)
      (by omega) (by omega)).1
  · exact ((init_validation_spec npBase 0 2 4).2 (by omega) (by omega)
      (by omega) (by omega)).2.2.1

/-- C8: a local input submitted while the engine is at frame `F` is
stored at ring slot `(F + delay) mod 256` with its frame number
rewritten to `F + delay` (`u32` arithmetic) and its ready flag set; and
after a successful `Init`, every player's slots for frames
`0 … delay-1` hold neutral input (key mask `0xFFF`, no touch, lid open)
with the ready flag set. -/
theorem input_delay_spec (st : NPSession) (input : InputFrame)
    (lp np d : Int) (h2 : 2 ≤ np) (h4 : np ≤ 4) (h0 : 0 ≤ lp) (hlt : lp < np) :
    ((setLocalInput st input).inputBuf st.localPlayerID
        ((((st.currentFrame : Int) + st.inputDelay) % (u32Mod : Int)).toNat % 256) =
      { input with
        frameNum := (((st.currentFrame : Int) + st.inputDelay) % (u32Mod : Int)).toNat } ∧
     (setLocalInput st input).inputReady st.localPlayerID
        ((((st.currentFrame : Int) + st.inputDelay) % (u32Mod : Int)).toNat % 256) = true) ∧
    ((initSession st lp np d).1 = true ∧
     ∀ p f : Nat, p < np.toNat → f < d.toNat →
       (initSession st lp np d).2.inputReady p (f % 256) = true ∧
       ((initSession st lp np d).2.inputBuf p (f % 256)).keyMask = 0xFFF ∧
       ((initSession st lp np d).2.inputBuf p (f % 256)).touching = 0 ∧
       ((initSession st lp np d).2.inputBuf p (f % 256)).lidClosed = 0) := by
  refine ⟨⟨?_, ?_⟩, ?_, ?_⟩
  · simp [setLocalInput]
  · simp [setLocalInput]
  · have h1 : ¬(np < 2 ∨ 4 < np) := by omega
    have hg : ¬(lp < 0 ∨ np ≤ lp) := by omega
    simp [initSession, h1, hg]
  · intro p f hp hf
    have h1 : ¬(np < 2 ∨ 4 < np) := by omega
    have hg : ¬(lp < 0 ∨ np ≤ lp) := by omega
    have hkey := prefillPlayers_hit d.toNat
      { st with
        localPlayerID := lp.toNat, numInstances := np.toNat, inputDelay := d,
        currentFrame := 0, startFrame := 0, hostMode := decide (lp = 0),
        inputBuf := fun _ _ => InputFrame.zero,
        inputReady := fun _ _ => false } np.toNat p f hp hf
    simp only [initSession, h1, hg, if_false, ite_false]
    exact ⟨hkey.1, hkey.2.1, hkey.2.2.1, hkey.2.2.2.2.2⟩

/-- Witness for `input_delay_spec`: a host session `(0, 2, 4)`; the
local input lands at slot 4 with frame number 4, and slot 0 of player 1
is neutral and ready after `Init`. -/
theorem input_delay_spec_witness :
    (setLocalInput (initSession npBase 0 2 4).2 (InputFrame.neutral 0)).inputReady 0 4 = true ∧
    (initSession npBase 0 2 4).2.inputReady 1 0 = true ∧
    ((initSession npBase 0 2 4).2.inputBuf 1 0).keyMask = 0xFFF := by
  have h := input_delay_spec (initSession npBase 0 2 4).2 (InputFrame.neutral 0)
    0 2 4 (by omega) (by omega) (by omega) (by omega)
  have h' := input_delay_spec npBase (InputFrame.neutral 0)
    0 2 4 (by omega) (by omega) (by omega) (by omega)
  refine ⟨?_, ?_, ?_⟩
  · exact h.1.2
  · exact (h'.2.2 1 0 (by decide) (by decide)).1
  · exact (h'.2.2 1 0 (by decide) (by decide)).2.1

/-- C1 (amended): on every frame an active session executes, `RunFrame`
consumes the ring slot `CurrentFrame mod 256` unconditionally — the
readiness recorded at the moment `ApplyInputs` reads the slot is simply
whatever the flags then hold, with no requirement that they be set —
and afterwards every player's ready flag at that slot is cleared. -/
theorem runFrame_consume_spec (runInst : Nat → InstMem → InstMem)
    (digest : List Nat → Nat) (st : NPSession)
    (hact : st.active = true) (hn : st.numInstances ≠ 0) :
    (runFrame runInst digest st).2.2 =
      some { frame := st.currentFrame,
             readiness := (List.range st.numInstances).map
               fun p => st.inputReady p (st.currentFrame % 256),
             inputs := (List.range st.numInstances).map
               fun p => st.inputBuf p (st.currentFrame % 256) } ∧
    ∀ p, p < st.numInstances →
      (runFrame runInst digest st).1.inputReady p (st.currentFrame % 256) = false := by
  have hguard : (!st.active || st.numInstances = 0) = false := by
    simp [hact, hn]
  constructor
  · simp only [runFrame, hguard, Bool.false_eq_true, if_false, ite_false,
      applyInputs]
  · intro p hp
    simp only [runFrame, hguard, Bool.false_eq_true, if_false, ite_false,
      applyInputs]
    split <;> simp [hp]

/-- Counterexample to C1 as stated: in the active two-player session
`c1State` (input delay 0, so no slot was pre-filled) `RunFrame` applies
inputs for frame 0 even though no player's slot at `0 mod 256` is
ready. -/
theorem runFrame_consume_cex :
    c1State.active = true ∧
    readyForFrame c1State 0 = false ∧
    c1State.currentFrame = 0 ∧
    (runFrame (fun _ m => m) (fun _ => 0) c1State).2.2 =
      some { frame := 0, readiness := [false, false],
             inputs := [InputFrame.zero, InputFrame.zero] } := by
  refine ⟨by decide, by decide, by decide, ?_⟩
  decide

/-- Witness for `runFrame_consume_spec` at the concrete session
`c1State`. -/
theorem runFrame_consume_spec_witness :
    c1State.active = true ∧ c1State.numInstances ≠ 0 ∧
    (runFrame (fun _ m => m) (fun _ => 0) c1State).1.inputReady 0 (c1State.currentFrame % 256) = false := by
  refine ⟨by decide, by decide, ?_⟩
  exact (runFrame_consume_spec (fun _ m => m) (fun _ => 0) c1State
    (by decide) (by decide)).2 0 (by decide)

/-! ## RX-queue consumer lemmas (`LAN::ProcessLAN`, `LAN::RecvPacketGeneric`) -/

theorem processLANQueue_blocking (now : Nat) (q : List MPPkt) :
    processLANQueue 2 now q =
      (q.dropWhile (fun p => staleDrop now p.rxTime),
       !(q.dropWhile (fun p => staleDrop now p.rxTime)).isEmpty) := by
  induction q with
  | nil => rfl
  | cons p rest ih =>
      by_cases h : staleDrop now p.rxTime
      · simpa [processLANQueue, List.dropWhile, h] using ih
      · simp [processLANQueue, List.dropWhile, h]

theorem dropWhile_head_false {α} (pred : α → Bool) (l : List α) (p : α)
    (rest : List α) (h : l.dropWhile pred = p :: rest) : pred p = false := by
  induction l with
  | nil => simp [List.dropWhile] at h
  | cons x xs ih =>
      by_cases hx : pred x
      · rw [List.dropWhile_cons_of_pos hx] at h
        exact ih h
      · rw [List.dropWhile_cons_of_neg hx] at h
        rw [← (List.cons.injEq ..).mp h |>.1]
        simpa using hx

theorem recvHostPacket_scan (now : Nat) (q : List MPPkt) :
    recvHostPacket now q =
      match q.dropWhile (fun p => staleDrop now p.rxTime) with
      | [] => (none, [])
      | p :: rest => (some p, rest) := by
  unfold recvHostPacket recvPacketGeneric
  rw [if_pos rfl, processLANQueue_blocking]

/-- C5 (amended): `RecvHostPacket` makes a single scan of the RX queue:
it pops and destroys the consecutive stale packets at the head and then
delivers the first fresh packet *regardless of its type* (a single 2 ms
throttle sleep happens when the queue holds no fresh packet); the 25 ms
`MPRecvTimeout` is never consulted on this path. -/
theorem recvHostPacket_spec (now : Nat) (q : List MPPkt) :
    recvHostPacket now q =
      match q.dropWhile (fun p => staleDrop now p.rxTime) with
      | [] => (none, [])
      | p :: rest => (some p, rest) :=
  recvHostPacket_scan now q

/-- Counterexample to C5 as stated: a queued fresh bulk frame
(`Type = 0`, not a command) is delivered by `RecvHostPacket`. -/
theorem recvHostPacket_cex :
    (recvHostPacket 1000 [⟨1000, 3, 0, 8, 77⟩]).1 = some ⟨1000, 3, 0, 8, 77⟩ ∧
    (0 : Nat) % u16Mod ≠ 1 := by decide

/-! ## rxTime-independence of the reply gather -/

theorem goodReply_rxTime (ctx : ReplyCtx) (p : MPPkt) (t : Nat) :
    goodReply ctx { p with rxTime := t } = goodReply ctx p := rfl

theorem replyRetStep_rxTime (ret : Nat) (p : MPPkt) (t : Nat) :
    replyRetStep ret { p with rxTime := t } = replyRetStep ret p := rfl

theorem replyMaskStep_rxTime (mym : Nat) (p : MPPkt) (t : Nat) :
    replyMaskStep mym { p with rxTime := t } = replyMaskStep mym p := rfl

theorem drainReplies_rxTime (ctx : ReplyCtx) (g : Nat → Nat)
    (pkts : List MPPkt) : ∀ ret mym,
    drainReplies ctx (pkts.map fun p => { p with rxTime := g p.rxTime }) ret mym =
      drainReplies ctx pkts ret mym := by
  induction pkts with
  | nil => intro ret mym; rfl
  | cons p rest ih =>
      intro ret mym
      simp only [List.map_cons, drainReplies, goodReply_rxTime,
        replyRetStep_rxTime, replyMaskStep_rxTime]
      by_cases h : goodReply ctx p
      · simp only [h, if_true, ite_true]
        by_cases hd : replyDone ctx (replyRetStep ret p) (replyMaskStep mym p)
        · simp [hd]
        · simp [hd, ih]
      · simp [h, ih]

theorem recvRepliesRounds_rxTime (ctx : ReplyCtx) (g : Nat → Nat)
    (rounds : List (List MPPkt)) : ∀ ret mym,
    recvRepliesRounds ctx
        (rounds.map (List.map fun p => { p with rxTime := g p.rxTime })) ret mym =
      recvRepliesRounds ctx rounds ret mym := by
  induction rounds with
  | nil => intro ret mym; rfl
  | cons r rest ih =>
      intro ret mym
      simp only [List.map_cons, recvRepliesRounds, drainReplies_rxTime]
      by_cases h : (drainReplies ctx r ret mym).2.2
      · simp [h]
      · simp [h, ih]

/-- C4 (amended): the receive-wallclock staleness filter
(drop when outside `[now − 500 ms, now]`, i.e. when the packet sat for
501 ms or more) is applied on the blocking dequeue path: every packet
`RecvHostPacket` delivers is fresh.  It is *not* a property of all
dequeue paths: `RecvReplies` never reads the receive wall-clock — its
result is invariant under arbitrary rewriting of every queued packet's
`rxTime` — and `RecvPacket` checks only the head of the queue (see the
counterexample). -/
theorem rx_staleness_spec :
    (∀ (now : Nat) (q : List MPPkt) (p : MPPkt) (q' : List MPPkt),
       recvHostPacket now q = (some p, q') → staleDrop now p.rxTime = false) ∧
    (∀ (ctx : ReplyCtx) (rounds : List (List MPPkt)) (g : Nat → Nat),
       recvReplies ctx
           (rounds.map (List.map fun p => { p with rxTime := g p.rxTime })) =
         recvReplies ctx rounds) := by
  constructor
  · intro now q p q' h
    rw [recvHostPacket_scan] at h
    rcases hd : q.dropWhile (fun p => staleDrop now p.rxTime) with _ | ⟨x, rest⟩
    · rw [hd] at h; simp at h
    · rw [hd] at h
      simp only at h
      have hx := dropWhile_head_false _ q x rest hd
      have : p = x := by
        have := (Prod.mk.injEq ..).mp h
        exact ((Option.some.injEq ..).mp this.1).symm
      rw [this]
      exact hx
  · intro ctx rounds g
    unfold recvReplies
    by_cases h : (2 ^ ctx.myID % u16Mod) &&& ctx.connmask = ctx.connmask
    · simp [h]
    · simp [h, recvRepliesRounds_rxTime]

/-- Counterexample to C4 as stated: with a fresh command packet at the
head of the queue and behind it a packet that has sat for 600 ms,
`RecvPacket` pops (and destroys) the command packet and then delivers
the stale packet without any staleness check. -/
theorem rx_staleness_cex :
    (recvPacket 1000 [⟨1000, 1, 1, 8, 0⟩, ⟨400, 2, 0, 16, 0⟩]).1 =
      some ⟨400, 2, 0, 16, 0⟩ ∧
    staleDrop 1000 400 = true ∧ 1000 - 400 = 600 := by decide

/-- Witness for `rx_staleness_spec`: a concrete blocking dequeue whose
delivered packet is certified fresh by the theorem. -/
theorem rx_staleness_spec_witness :
    recvHostPacket 1000 [⟨900, 4, 2, 8, 0⟩] = (some ⟨900, 4, 2, 8, 0⟩, []) ∧
    staleDrop 1000 900 = false := by
  refine ⟨by decide, ?_⟩
  exact rx_staleness_spec.1 1000 [⟨900, 4, 2, 8, 0⟩] ⟨900, 4, 2, 8, 0⟩ []
    (by decide)

/-! ## BlobTransfer lemmas -/

theorem BlobState.run_append (b : BlobState) (xs ys : List BlobMsg) :
    b.run (xs ++ ys) = (b.run xs).run ys := by
  induction xs generalizing b with
  | nil => rfl
  | cons m ms ih => exact ih _

/-- Running the sender's chunk sequence for `rest` at base offset `off`
over a receiving state whose buffer is full-length writes `rest` at
`off` and leaves everything else as is. -/
theorem run_chunkMsgs : ∀ (n : Nat) (rest : List Nat), rest.length ≤ n →
    ∀ (off : Nat) (b : BlobState), b.receiving = true →
    b.buffer.length = b.totalLen → b.totalLen = off + rest.length →
    (b.run (chunkMsgs off rest)).buffer = b.buffer.take off ++ rest ∧
    (b.run (chunkMsgs off rest)).receiving = true ∧
    (b.run (chunkMsgs off rest)).totalLen = b.totalLen ∧
    (b.run (chunkMsgs off rest)).complete = b.complete := by
  intro n
  induction n with
  | zero =>
      intro rest hlen off b hr hbuf htot
      have hnil : rest = [] := List.length_eq_zero.mp (by omega)
      subst hnil
      have h0 : chunkMsgs off [] = [] := by simp [chunkMsgs]
      rw [h0]
      simp only [List.length_nil, Nat.add_zero] at htot
      refine ⟨?_, hr, rfl, rfl⟩
      show b.buffer = b.buffer.take off ++ []
      rw [List.take_of_length_le (by omega), List.append_nil]
  | succ n ih =>
      intro rest hlen off b hr hbuf htot
      match rest with
      | [] =>
          have h0 : chunkMsgs off [] = [] := by simp [chunkMsgs]
          rw [h0]
          simp only [List.length_nil, Nat.add_zero] at htot
          refine ⟨?_, hr, rfl, rfl⟩
          show b.buffer = b.buffer.take off ++ []
          rw [List.take_of_length_le (by omega), List.append_nil]
      | x :: rest' =>
          have hlen' : rest'.length + 1 ≤ n + 1 := by
            simpa using hlen
          have htot' : b.totalLen = off + (rest'.length + 1) := by
            simpa using htot
          have hstep : chunkMsgs off (x :: rest') =
              .bchunk off ((x :: rest').take 65536) ::
                chunkMsgs (off + min 65536 (rest'.length + 1))
                  (rest'.drop 65535) := by
            rw [chunkMsgs]
          rw [hstep]
          set chunk := (x :: rest').take 65536 with hchunk
          have hcl : chunk.length = min 65536 (rest'.length + 1) := by
            rw [hchunk, List.length_take, List.length_cons]
          have hnotover : ¬ (b.totalLen < off + chunk.length) := by omega
          have hmsg : (b.onMessage (.bchunk off chunk)).1 = blobAfterChunk b off chunk := by
            simp [BlobState.onMessage, blobAfterChunk, hr, hnotover]
          have hrunstep :
              b.run (.bchunk off chunk ::
                chunkMsgs (off + min 65536 (rest'.length + 1)) (rest'.drop 65535)) =
              ((b.onMessage (.bchunk off chunk)).1).run
                (chunkMsgs (off + min 65536 (rest'.length + 1)) (rest'.drop 65535)) := rfl
          rw [hrunstep, hmsg]
          have hb'buf : (blobAfterChunk b off chunk).buffer = overlayAt b.buffer off chunk := rfl
          have hb'tot : (blobAfterChunk b off chunk).totalLen = b.totalLen := rfl
          have hover_len :
              (overlayAt b.buffer off chunk).length = b.buffer.length := by
            simp only [overlayAt, List.length_append, List.length_take,
              List.length_drop]
            omega
          have hdroplen : (rest'.drop 65535).length = rest'.length - 65535 :=
            List.length_drop 65535 rest'
          have hrec := ih (rest'.drop 65535) (by omega)
            (off + chunk.length) (blobAfterChunk b off chunk)
            hr (by rw [hb'buf, hb'tot, hover_len, hbuf])
            (by rw [hb'tot, hdroplen]; omega)
          rw [hcl.symm]
          have h1 : (b.buffer.take off ++ chunk).length = off + chunk.length := by
            simp only [List.length_append, List.length_take]
            omega
          have htk : (overlayAt b.buffer off chunk).take (off + chunk.length) =
              b.buffer.take off ++ chunk := by
            calc (overlayAt b.buffer off chunk).take (off + chunk.length)
                = ((b.buffer.take off ++ chunk) ++
                    b.buffer.drop (off + chunk.length)).take (off + chunk.length) := by
                  simp [overlayAt]
              _ = b.buffer.take off ++ chunk := List.take_left' h1
          have hdrop : rest'.drop 65535 = (x :: rest').drop 65536 := rfl
          refine ⟨?_, hrec.2.1, hrec.2.2.1.trans hb'tot, hrec.2.2.2⟩
          rw [hrec.1, hb'buf, htk, hdrop, List.append_assoc]
          congr 1
          exact List.take_append_drop 65536 (x :: rest')

/-- C2 (amended): the receiver marks a blob complete iff, at `BlobEnd`,
the byte-sum (mod `2^32`) of its zero-initialized `TotalLen`-byte
buffer — as overlaid by whatever chunks were accepted — equals the
message's checksum; a chunk is accepted whenever the receiver is
mid-reception and the chunk lies inside `[0, TotalLen)`, with no
ordering or duplication constraint, and is rejected exactly when it
overruns the buffer; and the sender's untampered in-order message
sequence always completes with the buffer equal to the sent data. -/
theorem blob_complete_spec :
    (∀ (b : BlobState) (t c : Nat), b.receiving = true → b.complete = false →
       ((b.onMessage (.bend t c)).1.complete = true ↔
         byteChecksum (b.buffer.take b.totalLen) = c % u32Mod)) ∧
    (∀ (b : BlobState) (off : Nat) (pl : List Nat), b.receiving = true →
       (off + pl.length ≤ b.totalLen →
          (b.onMessage (.bchunk off pl)).1 =
            { b with buffer := overlayAt b.buffer off pl,
                     receivedLen := b.receivedLen + pl.length }) ∧
       (b.totalLen < off + pl.length →
          (b.onMessage (.bchunk off pl)) = (b, false))) ∧
    (∀ (t : Nat) (data : List Nat),
       (BlobState.initial.run (sendMsgs t data)).complete = true ∧
       (BlobState.initial.run (sendMsgs t data)).buffer = data ∧
       (BlobState.initial.run (sendMsgs t data)).totalLen = data.length) := by
  refine ⟨?_, ?_, ?_⟩
  · intro b t c hr hc
    simp only [BlobState.onMessage, hr, Bool.not_true, Bool.false_eq_true,
      if_false, ite_false]
    by_cases h : byteChecksum (b.buffer.take b.totalLen) = c % u32Mod
    · simp [h]
    · simp [h, hc]
  · intro b off pl hr
    constructor
    · intro hin
      have : ¬ (b.totalLen < off + pl.length) := by omega
      simp [BlobState.onMessage, hr, this]
    · intro hover
      simp [BlobState.onMessage, hr, hover]
  · intro t data
    have hstart : (BlobState.initial.onMessage (.bstart t data.length)).1 =
        blobAfterStart t data.length := rfl
    have hchunks := run_chunkMsgs data.length data (le_refl _) 0
      (blobAfterStart t data.length) rfl (by simp [blobAfterStart])
      (by simp [blobAfterStart])
    simp only [List.take_zero, List.nil_append] at hchunks
    have hrun : BlobState.initial.run (sendMsgs t data) =
        (((BlobState.initial.onMessage (.bstart t data.length)).1).run
          (chunkMsgs 0 data)).run [.bend t (byteChecksum data)] := by
      show BlobState.initial.run
        (.bstart t data.length ::
          (chunkMsgs 0 data ++ [.bend t (byteChecksum data)])) = _
      rw [show BlobState.initial.run
            (.bstart t data.length ::
              (chunkMsgs 0 data ++ [.bend t (byteChecksum data)])) =
          ((BlobState.initial.onMessage (.bstart t data.length)).1).run
            (chunkMsgs 0 data ++ [.bend t (byteChecksum data)]) from rfl]
      rw [BlobState.run_append]
    rw [hrun, hstart]
    have hb2buf : ((blobAfterStart t data.length).run (chunkMsgs 0 data)).buffer = data :=
      hchunks.1
    have hb2rec : ((blobAfterStart t data.length).run (chunkMsgs 0 data)).receiving = true :=
      hchunks.2.1
    have hb2tot : ((blobAfterStart t data.length).run (chunkMsgs 0 data)).totalLen =
        data.length := hchunks.2.2.1
    have hle : byteChecksum data < u32Mod :=
      Nat.mod_lt _ (by norm_num [u32Mod])
    have hcmp : ¬ (byteChecksum
        (((blobAfterStart t data.length).run (chunkMsgs 0 data)).buffer.take
          ((blobAfterStart t data.length).run (chunkMsgs 0 data)).totalLen) ≠
        byteChecksum data % u32Mod) := by
      rw [hb2buf, hb2tot, List.take_length]
      simp [Nat.mod_eq_of_lt hle]
    simp only [BlobState.run, BlobState.onMessage, hb2rec, Bool.not_true,
      Bool.false_eq_true, if_false, ite_false]
    rw [if_neg hcmp]
    exact ⟨rfl, hb2buf, hb2tot⟩

/-- Counterexample to C2 as stated: for a 2-byte blob, a chunk covering
only offset 1 is applied twice (the duplicate is accepted, `ReceivedLen`
reaches 2) while offset 0 is never covered by any chunk, yet `BlobEnd`
still marks the blob complete because the zero-filled gap keeps the
byte-sum equal to the carried checksum. -/
theorem blob_complete_cex :
    (BlobState.initial.run
      [.bstart 1 2, .bchunk 1 [5], .bchunk 1 [5], .bend 1 5]).complete = true ∧
    (BlobState.initial.run
      [.bstart 1 2, .bchunk 1 [5], .bchunk 1 [5], .bend 1 5]).receivedLen = 2 ∧
    (BlobState.initial.run
      [.bstart 1 2, .bchunk 1 [5], .bchunk 1 [5], .bend 1 5]).buffer = [0, 5] := by
  decide

/-- Witness for `blob_complete_spec`: a receiving 2-byte state completes
on a matching checksum, accepts an in-bounds chunk, and a 3-byte
send/receive round-trip reconstructs the data. -/
theorem blob_complete_spec_witness :
    ((blobAfterStart 0 2).onMessage (.bend 0 0)).1.complete = true ∧
    ((blobAfterStart 0 2).onMessage (.bchunk 1 [5])).1 =
      { blobAfterStart 0 2 with
        buffer := overlayAt (blobAfterStart 0 2).buffer 1 [5],
        receivedLen := 1 } ∧
    (BlobState.initial.run (sendMsgs 3 [10, 20, 30])).buffer = [10, 20, 30] := by
  refine ⟨?_, ?_, ?_⟩
  · exact (blob_complete_spec.1 (blobAfterStart 0 2) 0 0 rfl rfl).mpr (by decide)
  · exact ((blob_complete_spec.2.1 (blobAfterStart 0 2) 1 [5] rfl).1 (by decide))
  · exact (blob_complete_spec.2.2 3 [10, 20, 30]).2.1

/-- C6 (code bug): the blob-message dispatch loop of
`HandleControlMessage` is commented "Route to appropriate blob receiver
based on blob type", but it feeds every message to every receiver in
index order until one reports completion.  Evaluating it at the failing
input: while receiver 0 (`Blob_SRAM`) is mid-transfer of a 2-byte SRAM
blob (first byte 7 already applied), a `BlobStart` for blob type 1
(`Blob_Savestate0`) arrives; it resets *all five* receivers — receiver
0's type becomes 1 and its partially filled buffer is thrown away. -/
theorem blob_dispatch_bug :
    (([BlobMsg.bstart 0 2, .bchunk 0 [7]].foldl dispatchBlob
        (List.replicate 5 BlobState.initial)).map BlobState.buffer =
      [[7, 0], [7, 0], [7, 0], [7, 0], [7, 0]]) ∧
    (([BlobMsg.bstart 0 2, .bchunk 0 [7], .bstart 1 4].foldl dispatchBlob
        (List.replicate 5 BlobState.initial)).map BlobState.btype =
      [1, 1, 1, 1, 1]) ∧
    (([BlobMsg.bstart 0 2, .bchunk 0 [7], .bstart 1 4].foldl dispatchBlob
        (List.replicate 5 BlobState.initial)).map BlobState.buffer =
      [[0, 0, 0, 0], [0, 0, 0, 0], [0, 0, 0, 0], [0, 0, 0, 0], [0, 0, 0, 0]]) := by
  decide

/-- C7: at every checkpoint frame (`F > 0`, `F ≡ 0 (mod 60)`) of a
connected active session, `RunFrame` computes the digest of the
per-instance byte stream (main RAM, ARM9 registers, ARM7 registers) and
broadcasts `DesyncAlert{F, hash}`, recording the pair locally; and on a
peer's `DesyncAlert`, the desync callback fires exactly when the frame
matches the last locally hashed frame and the hashes differ, while the
session state is left untouched (the session continues — no recovery). -/
theorem desync_check_spec (runInst : Nat → InstMem → InstMem)
    (digest : List Nat → Nat) (st : NPSession)
    (hact : st.active = true) (hn : st.numInstances ≠ 0)
    (hf0 : 0 < st.currentFrame) (hf60 : st.currentFrame % 60 = 0)
    (hconn : st.transportConnected = true) :
    ((runFrame runInst digest st).2.1 =
       some (st.currentFrame,
         computeStateHash digest (runFrame runInst digest st).1.instances) ∧
     (runFrame runInst digest st).1.lastStateHash =
       computeStateHash digest (runFrame runInst digest st).1.instances ∧
     (runFrame runInst digest st).1.lastHashFrame = st.currentFrame) ∧
    (∀ (st' : NPSession) (frame hash : Nat), st'.desyncCbSet = true →
       (handleDesyncAlert st' frame hash).1 = st' ∧
       ((handleDesyncAlert st' frame hash).2 = true ↔
         (frame = st'.lastHashFrame ∧ hash ≠ st'.lastStateHash))) := by
  have hguard : (!st.active || st.numInstances = 0) = false := by
    simp [hact, hn]
  constructor
  · simp only [runFrame, hguard, Bool.false_eq_true, if_false, ite_false]
    rw [if_pos ⟨hf0, hf60⟩]
    simp [hconn]
  · intro st' frame hash hcb
    unfold handleDesyncAlert
    by_cases h : frame = st'.lastHashFrame ∧ hash ≠ st'.lastStateHash
    · simp [h, hcb]
    · simp [h]

/-- Witness for `desync_check_spec`: the concrete session `c7State` at
frame 60, with the digest instantiated as the stream length (8 bytes for
two copies of `demoInst`); a peer alert for frame 60 with hash 9 fires
the callback. -/
theorem desync_check_spec_witness :
    (runFrame (fun _ m => m) List.length c7State).2.1 = some (60, 8) ∧
    (handleDesyncAlert (runFrame (fun _ m => m) List.length c7State).1 60 9).2 =
      true := by
  have h := desync_check_spec (fun _ m => m) List.length c7State
    (by decide) (by decide) (by decide) (by decide) (by decide)
  constructor
  · exact h.1.1.trans (by decide)
  · exact (h.2 (runFrame (fun _ m => m) List.length c7State).1 60 9
      (by decide)).2.mpr ⟨by decide, by decide⟩

/-! ## Host connect lemmas (`LAN::ProcessHostEvent`) -/

/-- The allocation loop lands exactly on the lowest free slot index `m`
whenever `m ≤ NumPlayers`: every earlier slot is occupied, so neither
break fires before `m`, and at `m` one of the two breaks fires. -/
theorem findAssignID_go_eq (st : LanState) (m : Nat) (hm16 : m < 16)
    (hfree : (st.players ⟨m, hm16⟩).status = PlayerStatus.free)
    (hmin : ∀ j (hj : j < 16), j < m →
      (st.players ⟨j, hj⟩).status ≠ PlayerStatus.free)
    (hmnp : m ≤ st.numPlayers) :
    ∀ k i, i ≤ m → m - i ≤ k → findAssignID.go st i = m := by
  intro k
  induction k with
  | zero =>
      intro i hi hk
      have him : i = m := by omega
      subst him
      unfold findAssignID.go
      rw [dif_pos hm16]
      by_cases hnp : st.numPlayers ≤ i
      · rw [if_pos hnp]
      · rw [if_neg hnp, if_pos hfree]
  | succ k ih =>
      intro i hi hk
      by_cases him : i = m
      · subst him
        unfold findAssignID.go
        rw [dif_pos hm16]
        by_cases hnp : st.numPlayers ≤ i
        · rw [if_pos hnp]
        · rw [if_neg hnp, if_pos hfree]
      · have hlt : i < m := by omega
        unfold findAssignID.go
        rw [dif_pos (show i < 16 by omega)]
        rw [if_neg (show ¬ st.numPlayers ≤ i by omega)]
        rw [if_neg (hmin i (by omega) hlt)]
        exact ih (i + 1) (by omega) (by omega)

/-- When the occupied-slot count equals `NumPlayers < 16`, a free slot
exists and the lowest one sits at an index `≤ NumPlayers`. -/
theorem exists_lowest_free (st : LanState)
    (hnum : occupiedCount st = st.numPlayers) (h16 : st.numPlayers < 16) :
    ∃ (m : Nat) (hm : m < 16),
      (st.players ⟨m, hm⟩).status = PlayerStatus.free ∧
      (∀ j (hj : j < 16), j < m →
        (st.players ⟨j, hj⟩).status ≠ PlayerStatus.free) ∧
      m ≤ st.numPlayers := by
  have hSne : (Finset.univ.filter fun j : Fin 16 =>
      (st.players j).status = PlayerStatus.free).Nonempty := by
    by_contra hno
    rw [Finset.not_nonempty_iff_eq_empty, Finset.filter_eq_empty_iff] at hno
    have hfull : occupiedCount st = 16 := by
      unfold occupiedCount
      rw [Finset.filter_true_of_mem]
      · simp
      · intro j hj
        exact hno hj
    omega
  set S := Finset.univ.filter fun j : Fin 16 =>
    (st.players j).status = PlayerStatus.free with hS
  have hmmem : S.min' hSne ∈ S := Finset.min'_mem S hSne
  have hmfree : (st.players (S.min' hSne)).status = PlayerStatus.free :=
    (Finset.mem_filter.mp hmmem).2
  refine ⟨(S.min' hSne).val, (S.min' hSne).isLt, ?_, ?_, ?_⟩
  · simpa using hmfree
  · intro j hj hjm hfr
    have hmem : (⟨j, hj⟩ : Fin 16) ∈ S :=
      Finset.mem_filter.mpr ⟨Finset.mem_univ _, hfr⟩
    have hle : S.min' hSne ≤ ⟨j, hj⟩ := Finset.min'_le S _ hmem
    have : (S.min' hSne).val ≤ j := hle
    omega
  · by_contra hgt
    push_neg at hgt
    have hmaps : ∀ i ∈ Finset.range (S.min' hSne).val,
        (fun i : Nat => if h : i < 16 then (⟨i, h⟩ : Fin 16) else ⟨0, by omega⟩) i ∈
          Finset.univ.filter fun j : Fin 16 =>
            (st.players j).status ≠ PlayerStatus.free := by
      intro i hi
      rw [Finset.mem_range] at hi
      have h16i : i < 16 := by
        have := (S.min' hSne).isLt
        omega
      rw [Finset.mem_filter]
      refine ⟨Finset.mem_univ _, ?_⟩
      simp only [dif_pos h16i]
      intro hfr
      have hmem : (⟨i, h16i⟩ : Fin 16) ∈ S :=
        Finset.mem_filter.mpr ⟨Finset.mem_univ _, hfr⟩
      have hle : S.min' hSne ≤ ⟨i, h16i⟩ := Finset.min'_le S _ hmem
      have : (S.min' hSne).val ≤ i := hle
      omega
    have hinj : Set.InjOn
        (fun i : Nat => if h : i < 16 then (⟨i, h⟩ : Fin 16) else ⟨0, by omega⟩)
        (Finset.range (S.min' hSne).val) := by
      intro a ha b hb hab
      rw [Finset.coe_range, Set.mem_Iio] at ha hb
      have ha16 : a < 16 := by
        have := (S.min' hSne).isLt
        omega
      have hb16 : b < 16 := by
        have := (S.min' hSne).isLt
        omega
      simp only [dif_pos ha16, dif_pos hb16] at hab
      exact congrArg Fin.val hab
    have hcard := Finset.card_le_card_of_injOn _ hmaps hinj
    rw [Finset.card_range] at hcard
    unfold occupiedCount at hnum
    omega

/-- C9: a peer connect on the LAN host is rejected (the peer is
disconnected, every existing table entry untouched) when the table is at
capacity (`NumPlayers ≥ MaxPlayers` or `≥ 16`); otherwise — under the
table invariant that `NumPlayers` counts the occupied slots — the peer
is assigned the lowest free slot id, receives `ClientInit{id,
MaxPlayers}`, the slot is filled with status `Connecting` and the peer's
address, other entries stay unchanged, and `NumPlayers` increments. -/
theorem host_connect_spec (st : LanState) (peerAddr : Nat) :
    ((st.maxPlayers ≤ st.numPlayers ∨ 16 ≤ st.numPlayers) →
       processHostConnect st peerAddr = (st, .rejected)) ∧
    (st.numPlayers < st.maxPlayers → st.numPlayers < 16 →
     occupiedCount st = st.numPlayers →
     ∃ (id : Nat) (hid : id < 16),
       (st.players ⟨id, hid⟩).status = PlayerStatus.free ∧
       (∀ j (hj : j < 16), j < id →
         (st.players ⟨j, hj⟩).status ≠ PlayerStatus.free) ∧
       (processHostConnect st peerAddr).2 =
         ConnectResult.accepted id id st.maxPlayers ∧
       (processHostConnect st peerAddr).1.players ⟨id, hid⟩ =
         { id := id, status := PlayerStatus.connecting, address := peerAddr } ∧
       (∀ j : Fin 16, (j : Nat) ≠ id →
          (processHostConnect st peerAddr).1.players j = st.players j) ∧
       (processHostConnect st peerAddr).1.numPlayers = st.numPlayers + 1) := by
  constructor
  · intro h
    unfold processHostConnect
    rw [if_pos h]
  · intro hcap h16 hnum
    obtain ⟨m, hm, hfree, hmin, hmnp⟩ := exists_lowest_free st hnum h16
    have hfind : findAssignID st = m :=
      findAssignID_go_eq st m hm hfree hmin hmnp m 0 (by omega) (by omega)
    have hnotfull : ¬ (st.maxPlayers ≤ st.numPlayers ∨ 16 ≤ st.numPlayers) := by
      omega
    refine ⟨m, hm, hfree, hmin, ?_, ?_, ?_, ?_⟩
    · simp only [processHostConnect, hnotfull, if_false, ite_false, hfind]
      rw [dif_pos hm]
    · simp only [processHostConnect, hnotfull, if_false, ite_false, hfind]
      rw [dif_pos hm]
      simp
    · intro j hj
      simp only [processHostConnect, hnotfull, if_false, ite_false, hfind]
      rw [dif_pos hm]
      have hne : ¬ (j = (⟨m, hm⟩ : Fin 16)) := by
        intro he
        apply hj
        rw [he]
      simp [hne]
    · simp only [processHostConnect, hnotfull, if_false, ite_false, hfind]
      rw [dif_pos hm]

/-- Witness for `host_connect_spec`: the full 16-slot table rejects the
connecting peer; the fragmented table `lanDemo` (host at 0, client at 2)
assigns the lowest free id 1, keeps slot 2 untouched, and ends with
three players. -/
theorem host_connect_spec_witness :
    processHostConnect lanFull 5 = (lanFull, .rejected) ∧
    (processHostConnect lanDemo 5).2 = ConnectResult.accepted 1 1 4 ∧
    (processHostConnect lanDemo 5).1.numPlayers = 3 ∧
    (processHostConnect lanDemo 5).1.players 2 = lanDemo.players 2 := by
  have h1 := (host_connect_spec lanFull 5).1 (by right; decide)
  have h2 := (host_connect_spec lanDemo 5).2 (by decide) (by decide) (by decide)
  obtain ⟨id, hid, hfree, hmin, hacc, hpl, hoth, hnump⟩ := h2
  have hidne0 : id ≠ 0 := by
    intro h
    subst h
    have hfree' : (lanDemo.players (⟨0, by norm_num⟩ : Fin 16)).status =
        PlayerStatus.free := hfree
    exact absurd hfree' (by decide)
  have hfree1 : (lanDemo.players (⟨1, by norm_num⟩ : Fin 16)).status =
      PlayerStatus.free := by decide
  have hidle : ¬ (1 < id) := fun hgt => hmin 1 (by norm_num) hgt hfree1
  have hideq : id = 1 := by omega
  subst hideq
  refine ⟨h1, hacc.trans (by decide), hnump.trans (by decide), ?_⟩
  exact hoth 2 (by decide)

/-! ## Reply-gather lemmas (`LAN::RecvReplies`) -/

theorem drainReplies_append (ctx : ReplyCtx) (xs ys : List MPPkt) :
    ∀ ret mym,
    drainReplies ctx (xs ++ ys) ret mym =
      (if (drainReplies ctx xs ret mym).2.2 then drainReplies ctx xs ret mym
       else drainReplies ctx ys (drainReplies ctx xs ret mym).1
         (drainReplies ctx xs ret mym).2.1) := by
  induction xs with
  | nil =>
      intro ret mym
      simp [drainReplies]
  | cons p rest ih =>
      intro ret mym
      simp only [List.cons_append, drainReplies]
      by_cases hg : goodReply ctx p
      · simp only [hg, if_true, ite_true]
        by_cases hd : replyDone ctx (replyRetStep ret p) (replyMaskStep mym p)
        · simp [hd]
        · simp only [hd, Bool.false_eq_true, if_false, ite_false]
          exact ih (replyRetStep ret p) (replyMaskStep mym p)
      · simp only [hg, Bool.false_eq_true, if_false, ite_false]
        exact ih ret mym

theorem recvRepliesRounds_join (ctx : ReplyCtx) (rounds : List (List MPPkt)) :
    ∀ ret mym,
    recvRepliesRounds ctx rounds ret mym =
      (drainReplies ctx rounds.flatten ret mym).1 := by
  induction rounds with
  | nil =>
      intro ret mym
      simp [recvRepliesRounds, drainReplies]
  | cons r rest ih =>
      intro ret mym
      simp only [recvRepliesRounds, List.flatten_cons]
      rw [drainReplies_append]
      by_cases hd : (drainReplies ctx r ret mym).2.2
      · simp [hd]
      · simp only [hd, Bool.false_eq_true, if_false, ite_false]
        exact ih _ _

theorem drainReplies_eq_procFold (ctx : ReplyCtx) (pkts : List MPPkt) :
    ∀ ret mym,
    drainReplies ctx pkts ret mym =
      (match firstTermAux ctx pkts ret mym with
       | some k => ((procFold ctx (pkts.take (k + 1)) (ret, mym)).1,
                    (procFold ctx (pkts.take (k + 1)) (ret, mym)).2, true)
       | none => ((procFold ctx pkts (ret, mym)).1,
                  (procFold ctx pkts (ret, mym)).2, false)) := by
  induction pkts with
  | nil =>
      intro ret mym
      simp [drainReplies, firstTermAux, procFold]
  | cons p rest ih =>
      intro ret mym
      by_cases hg : goodReply ctx p
      · by_cases hd : replyDone ctx (replyRetStep ret p) (replyMaskStep mym p)
        · simp [drainReplies, firstTermAux, procFold, hg, hd]
        · simp only [drainReplies, firstTermAux, procFold, hg, hd, if_true,
            ite_true, Bool.false_eq_true, if_false, ite_false]
          rw [ih (replyRetStep ret p) (replyMaskStep mym p)]
          cases haux : firstTermAux ctx rest (replyRetStep ret p) (replyMaskStep mym p) with
          | none => simp [List.take_cons, procFold, hg]
          | some k => simp [List.take_cons, procFold, hg]
      · simp only [drainReplies, firstTermAux, procFold, hg, Bool.false_eq_true,
          if_false, ite_false]
        rw [ih ret mym]
        cases haux : firstTermAux ctx rest ret mym with
        | none => simp [List.take_cons, procFold, hg]
        | some k => simp [List.take_cons, procFold, hg]

theorem firstTermAux_some_spec (ctx : ReplyCtx) (pkts : List MPPkt) :
    ∀ ret mym k, firstTermAux ctx pkts ret mym = some k →
      k < pkts.length ∧
      goodReply ctx (pkts.getD k dfltPkt) = true ∧
      replyDone ctx (procFold ctx (pkts.take (k + 1)) (ret, mym)).1
        (procFold ctx (pkts.take (k + 1)) (ret, mym)).2 = true ∧
      ∀ j, j < k →
        (goodReply ctx (pkts.getD j dfltPkt) &&
          replyDone ctx (procFold ctx (pkts.take (j + 1)) (ret, mym)).1
            (procFold ctx (pkts.take (j + 1)) (ret, mym)).2) = false := by
  induction pkts with
  | nil =>
      intro ret mym k h
      simp [firstTermAux] at h
  | cons p rest ih =>
      intro ret mym k h
      by_cases hg : goodReply ctx p
      · by_cases hd : replyDone ctx (replyRetStep ret p) (replyMaskStep mym p)
        · simp only [firstTermAux, hg, hd, if_true, ite_true] at h
          have hk : k = 0 := (Option.some.inj h).symm
          subst hk
          refine ⟨by simp, by simpa using hg, ?_, ?_⟩
          · simpa [List.take_succ_cons, List.take_zero, procFold, hg] using hd
          · intro j hj
            omega
        · simp only [firstTermAux, hg, hd, if_true, ite_true, Bool.false_eq_true,
            if_false, ite_false] at h
          obtain ⟨k', hk', hkk⟩ := Option.map_eq_some'.mp h
          subst hkk
          obtain ⟨h1, h2, h3, h4⟩ :=
            ih (replyRetStep ret p) (replyMaskStep mym p) k' hk'
          refine ⟨by simp only [List.length_cons]; omega, ?_, ?_, ?_⟩
          · simpa [List.getD_cons_succ] using h2
          · simpa [List.take_succ_cons, procFold, hg] using h3
          · intro j hj
            cases j with
            | zero =>
                simpa [List.take_succ_cons, List.take_zero, procFold, hg] using hd
            | succ j' =>
                have hh := h4 j' (by omega)
                simpa [List.getD_cons_succ, List.take_succ_cons, procFold, hg]
                  using hh
      · simp only [firstTermAux, hg, Bool.false_eq_true, if_false, ite_false] at h
        obtain ⟨k', hk', hkk⟩ := Option.map_eq_some'.mp h
        subst hkk
        obtain ⟨h1, h2, h3, h4⟩ := ih ret mym k' hk'
        refine ⟨by simp only [List.length_cons]; omega, ?_, ?_, ?_⟩
        · simpa [List.getD_cons_succ] using h2
        · simpa [List.take_succ_cons, procFold, hg] using h3
        · intro j hj
          cases j with
          | zero => simp [hg]
          | succ j' =>
              have hh := h4 j' (by omega)
              simpa [List.getD_cons_succ, List.take_succ_cons, procFold, hg]
                using hh

theorem firstTermAux_none_spec (ctx : ReplyCtx) (pkts : List MPPkt) :
    ∀ ret mym, firstTermAux ctx pkts ret mym = none →
      ∀ j, j < pkts.length →
        (goodReply ctx (pkts.getD j dfltPkt) &&
          replyDone ctx (procFold ctx (pkts.take (j + 1)) (ret, mym)).1
            (procFold ctx (pkts.take (j + 1)) (ret, mym)).2) = false := by
  induction pkts with
  | nil =>
      intro ret mym h j hj
      simp at hj
  | cons p rest ih =>
      intro ret mym h j hj
      by_cases hg : goodReply ctx p
      · by_cases hd : replyDone ctx (replyRetStep ret p) (replyMaskStep mym p)
        · simp [firstTermAux, hg, hd] at h
        · simp only [firstTermAux, hg, hd, if_true, ite_true, Bool.false_eq_true,
            if_false, ite_false, Option.map_eq_none'] at h
          cases j with
          | zero =>
              simpa [List.take_succ_cons, List.take_zero, procFold, hg] using hd
          | succ j' =>
              have hh := ih (replyRetStep ret p) (replyMaskStep mym p) h j'
                (by simp only [List.length_cons] at hj; omega)
              simpa [List.getD_cons_succ, List.take_succ_cons, procFold, hg]
                using hh
      · simp only [firstTermAux, hg, Bool.false_eq_true, if_false, ite_false,
          Option.map_eq_none'] at h
        cases j with
        | zero => simp [hg]
        | succ j' =>
            have hh := ih ret mym h j'
              (by simp only [List.length_cons] at hj; omega)
            simpa [List.getD_cons_succ, List.take_succ_cons, procFold, hg]
              using hh

theorem procFold_ret_lt (ctx : ReplyCtx) (pkts : List MPPkt) :
    ∀ rm : Nat × Nat, rm.1 < u16Mod → (procFold ctx pkts rm).1 < u16Mod := by
  induction pkts with
  | nil =>
      intro rm h
      simpa [procFold] using h
  | cons p rest ih =>
      intro rm h
      simp only [procFold]
      by_cases hg : goodReply ctx p
      · simp only [hg, if_true, ite_true]
        apply ih
        show replyRetStep rm.1 p < u16Mod
        rw [replyRetStep]
        by_cases hl : p.length ≠ 0
        · rw [if_pos hl]
          exact Nat.mod_lt _ (by norm_num [u16Mod])
        · rw [if_neg hl]
          exact h
      · simp only [hg, Bool.false_eq_true, if_false, ite_false]
        exact ih rm h

theorem procFold_testBit (ctx : ReplyCtx) (pkts : List MPPkt) :
    ∀ rm : Nat × Nat, rm.1 < u16Mod → ∀ aid, aid < 16 →
    ((procFold ctx pkts rm).1.testBit aid ↔
      (rm.1.testBit aid ∨ ∃ p ∈ pkts, replyCollected ctx p = true ∧
        p.ptype / u16Mod = aid)) := by
  induction pkts with
  | nil =>
      intro rm h aid ha
      simp [procFold]
  | cons p rest ih =>
      intro rm h aid ha
      have hsplit : (∃ q ∈ p :: rest, replyCollected ctx q = true ∧
            q.ptype / u16Mod = aid) ↔
          ((replyCollected ctx p = true ∧ p.ptype / u16Mod = aid) ∨
            ∃ q ∈ rest, replyCollected ctx q = true ∧ q.ptype / u16Mod = aid) := by
        constructor
        · rintro ⟨q, hq, h1, h2⟩
          rcases List.mem_cons.mp hq with rfl | hq'
          · exact Or.inl ⟨h1, h2⟩
          · exact Or.inr ⟨q, hq', h1, h2⟩
        · rintro (⟨h1, h2⟩ | ⟨q, hq, h1, h2⟩)
          · exact ⟨p, List.mem_cons_self .., h1, h2⟩
          · exact ⟨q, List.mem_cons_of_mem _ hq, h1, h2⟩
      rw [hsplit]
      simp only [procFold]
      by_cases hg : goodReply ctx p
      · simp only [hg, if_true, ite_true]
        by_cases hl : p.length = 0
        · have hstep : replyRetStep rm.1 p = rm.1 := by
            simp [replyRetStep, hl]
          have hc : replyCollected ctx p = false := by
            simp [replyCollected, hl]
          rw [ih (replyRetStep rm.1 p, replyMaskStep rm.2 p)
            (by simpa [hstep] using h) aid ha]
          rw [hstep, hc]
          simp
        · have hstep : replyRetStep rm.1 p =
              (rm.1 ||| 2 ^ (p.ptype / u16Mod)) % u16Mod := by
            simp [replyRetStep, hl]
          have hc : replyCollected ctx p = true := by
            simp [replyCollected, hg, hl]
          rw [ih (replyRetStep rm.1 p, replyMaskStep rm.2 p)
            (by rw [hstep]; exact Nat.mod_lt _ (by norm_num [u16Mod])) aid ha]
          have hm16 : u16Mod = 2 ^ 16 := by norm_num [u16Mod]
          have hbit : (replyRetStep rm.1 p).testBit aid =
              (rm.1.testBit aid || decide (p.ptype / u16Mod = aid)) := by
            rw [hstep, hm16, Nat.testBit_mod_two_pow, Nat.testBit_or,
              Nat.testBit_two_pow]
            have hdec : decide (aid < 16) = true := by
              simp [ha]
            rw [hdec, Bool.true_and]
          rw [hbit, hc]
          simp only [Bool.or_eq_true, decide_eq_true_eq, true_and]
          tauto
      · simp only [hg, Bool.false_eq_true, if_false, ite_false]
        rw [ih rm h aid ha]
        have hc : replyCollected ctx p = false := by
          simp [replyCollected, hg]
        rw [hc]
        simp

/-- C3: `RecvReplies` returns 0 at once when the connected bitmask is
already covered by the local bit; otherwise it returns exactly the fold
of the packets it processed — bit `aid` (for `aid < 16`) is set iff a
collected reply (fresh, nonempty payload) with that aid is among them —
and the processed packets are the queue prefix up to and including the
first packet whose handling satisfies an early-exit condition ((a) every
connected peer has replied, or (b) `aidmask` is covered), or all packets
arriving before the `MPRecvTimeout` expiry (condition (c), the `rounds`
list running out) when no packet triggers the early exit. -/
theorem recvReplies_gather_spec (ctx : ReplyCtx) (rounds : List (List MPPkt)) :
    (initReplied ctx = true → recvReplies ctx rounds = 0) ∧
    (initReplied ctx = false →
      recvReplies ctx rounds =
        (procFold ctx (processedReplies ctx rounds.flatten) (replyInit ctx)).1 ∧
      (∀ aid, aid < 16 →
        ((recvReplies ctx rounds).testBit aid ↔
          ∃ p ∈ processedReplies ctx rounds.flatten,
            replyCollected ctx p = true ∧ p.ptype / u16Mod = aid)) ∧
      (match firstTerm ctx rounds.flatten with
       | some k =>
           k < rounds.flatten.length ∧
           termTriggered ctx rounds.flatten k = true ∧
           processedReplies ctx rounds.flatten = rounds.flatten.take (k + 1) ∧
           ∀ j, j < k → termTriggered ctx rounds.flatten j = false
       | none =>
           processedReplies ctx rounds.flatten = rounds.flatten ∧
           ∀ j, j < rounds.flatten.length →
             termTriggered ctx rounds.flatten j = false)) := by
  constructor
  · intro h
    unfold recvReplies
    rw [if_pos (by simpa [initReplied] using h)]
  · intro h
    have hcond : ¬ (2 ^ ctx.myID % u16Mod &&& ctx.connmask = ctx.connmask) := by
      simpa [initReplied] using h
    have hmain : recvReplies ctx rounds =
        (drainReplies ctx rounds.flatten 0 (2 ^ ctx.myID % u16Mod)).1 := by
      unfold recvReplies
      rw [if_neg hcond]
      exact recvRepliesRounds_join ctx rounds 0 _
    have hdrain := drainReplies_eq_procFold ctx rounds.flatten 0
      (2 ^ ctx.myID % u16Mod)
    refine ⟨?_, ?_, ?_⟩
    · rw [hmain, hdrain]
      cases hft : firstTermAux ctx rounds.flatten 0 (2 ^ ctx.myID % u16Mod) with
      | some k =>
          have hp : processedReplies ctx rounds.flatten =
              rounds.flatten.take (k + 1) := by
            unfold processedReplies
            rw [show firstTerm ctx rounds.flatten = some k from hft]
          rw [hp]
          rfl
      | none =>
          have hp : processedReplies ctx rounds.flatten = rounds.flatten := by
            unfold processedReplies
            rw [show firstTerm ctx rounds.flatten = none from hft]
          rw [hp]
          rfl
    · intro aid ha
      rw [hmain, hdrain]
      cases hft : firstTermAux ctx rounds.flatten 0 (2 ^ ctx.myID % u16Mod) with
      | some k =>
          have hp : processedReplies ctx rounds.flatten =
              rounds.flatten.take (k + 1) := by
            unfold processedReplies
            rw [show firstTerm ctx rounds.flatten = some k from hft]
          rw [hp]
          show ((procFold ctx (rounds.flatten.take (k + 1))
              (0, 2 ^ ctx.myID % u16Mod)).1.testBit aid ↔ _)
          rw [procFold_testBit ctx (rounds.flatten.take (k + 1))
            (0, 2 ^ ctx.myID % u16Mod) (by norm_num [u16Mod]) aid ha]
          simp [Nat.zero_testBit]
      | none =>
          have hp : processedReplies ctx rounds.flatten = rounds.flatten := by
            unfold processedReplies
            rw [show firstTerm ctx rounds.flatten = none from hft]
          rw [hp]
          show ((procFold ctx rounds.flatten
              (0, 2 ^ ctx.myID % u16Mod)).1.testBit aid ↔ _)
          rw [procFold_testBit ctx rounds.flatten
            (0, 2 ^ ctx.myID % u16Mod) (by norm_num [u16Mod]) aid ha]
          simp [Nat.zero_testBit]
    · cases hft : firstTermAux ctx rounds.flatten 0 (2 ^ ctx.myID % u16Mod) with
      | some k =>
          rw [show firstTerm ctx rounds.flatten = some k from hft]
          obtain ⟨h1, h2, h3, h4⟩ :=
            firstTermAux_some_spec ctx rounds.flatten 0 (2 ^ ctx.myID % u16Mod)
              k hft
          refine ⟨h1, ?_, ?_, ?_⟩
          · unfold termTriggered
            rw [show replyInit ctx = (0, 2 ^ ctx.myID % u16Mod) from rfl,
              h2, h3]
            rfl
          · unfold processedReplies
            rw [show firstTerm ctx rounds.flatten = some k from hft]
          · intro j hj
            have hh := h4 j hj
            unfold termTriggered
            rw [show replyInit ctx = (0, 2 ^ ctx.myID % u16Mod) from rfl]
            exact hh
      | none =>
          rw [show firstTerm ctx rounds.flatten = none from hft]
          refine ⟨?_, ?_⟩
          · unfold processedReplies
            rw [show firstTerm ctx rounds.flatten = none from hft]
          · intro j hj
            have hh := firstTermAux_none_spec ctx rounds.flatten 0
              (2 ^ ctx.myID % u16Mod) hft j hj
            unfold termTriggered
            rw [show replyInit ctx = (0, 2 ^ ctx.myID % u16Mod) from rfl]
            exact hh

/-- Witness for `recvReplies_gather_spec`: local player 0 of a
four-player connected session gathers replies with aids 1, 2, 3 across
two drain rounds; the result is the bitmask `0xE`. -/
theorem recvReplies_gather_spec_witness :
    initReplied replyCtxDemo = false ∧
    recvReplies replyCtxDemo replyRoundsDemo = 14 := by
  refine ⟨by decide, ?_⟩
  have h := (recvReplies_gather_spec replyCtxDemo replyRoundsDemo).2 (by decide)
  exact h.1.trans (by decide)

end MelonNet
